import Mathlib

/-!
Verification development for the Libro backend (`apps/backend/src/main.ts`).

The file shallowly embeds the core logic of the backend:

* `parseTextRecommendations` — the heuristic line parser (main.ts lines 203-231);
* the structured-JSON branch of `POST /api/recommend-books` (lines 170-185),
  embedded as `parseResponseText`;
* the request handler's validation and truncation (lines 114-189), embedded
  as `recommendHandler`;
* the `GET /api/book-suggestions` handler (lines 74-103), embedded as
  `suggestionHandler`.

Strings in Lean 4.14 are wrappers around `List Char`; all JS string
operations (`split`, `trim`, `toLowerCase`, `includes`, `replace` with the
specific regexes appearing in the source) are embedded as executable
functions on `List Char`, each written to match the exact semantics of the
JS expression it models (in particular `String.prototype.replace` with a
non-global regex replaces only the leftmost match of the alternation).

`JSON.parse` is a host-language builtin, not code of this repository; it is
modelled as an oracle parameter `decode : String → Option Json`, where
`none` embeds a thrown `SyntaxError`. Property access and `Array.isArray`
on the decoded value are embedded faithfully over a `Json` inductive.
-/

/-- JS whitespace test used by `trim` and `\s*` (the relevant ASCII part:
space, tab, CR, LF; the source's inputs contain no exotic whitespace). -/
def wsChar (c : Char) : Bool :=
  c == ' ' || c == '\t' || c == '\r' || c == '\n'

/-- `String.prototype.trim`, on the character list. -/
def trimChars (cs : List Char) : List Char :=
  ((cs.dropWhile wsChar).reverse.dropWhile wsChar).reverse

/-- `line.trim()` as a string-to-string map. -/
def jsTrim (s : String) : String :=
  String.mk (trimChars s.data)

/-- `String.prototype.toLowerCase`, character-wise (ASCII). -/
def lowerChars (cs : List Char) : List Char :=
  cs.map Char.toLower

/-- `text.split('\n')`: split a character list at every newline; an empty
string yields `[""]` and a trailing newline yields a trailing `""`,
exactly as in JS. -/
def splitNlAux : List Char → List Char → List String
  | [], acc => [String.mk acc.reverse]
  | c :: cs, acc =>
    if c == '\n' then String.mk acc.reverse :: splitNlAux cs []
    else splitNlAux cs (c :: acc)

/-- `text.split('\n')` on a string. -/
def jsSplitNl (s : String) : List String :=
  splitNlAux s.data []

/-- Does `cs` start with `tok` (exact characters)? -/
def leadsWith : List Char → List Char → Bool
  | [], _ => true
  | _ :: _, [] => false
  | t :: ts, c :: cs => t == c && leadsWith ts cs

/-- `hay.includes(tok)`: substring containment by exact characters
(the source always calls it on the lowercased line with a lowercase
token). -/
def containsTok (tok : List Char) : List Char → Bool
  | [] => tok.isEmpty
  | c :: cs => leadsWith tok (c :: cs) || containsTok tok cs

/-- `lowerLine.match(/^\d+\./)` as a Boolean: after at least one leading
digit the next character is a literal dot. -/
def startsDotAfterDigits : List Char → Bool
  | [] => false
  | c :: cs => if c.isDigit then startsDotAfterDigits cs else c == '.'

/-- Does the line start with digits followed by a period (`/^\d+\./`)? -/
def startsNumDot : List Char → Bool
  | [] => false
  | c :: cs => c.isDigit && startsDotAfterDigits cs

/-- Case-insensitive anchored match of `label` (given lowercase) against
the head of `cs`; on success returns the remainder. Embeds matching one
alternative of a `/.../i` regex at a fixed position. -/
def stripLabelAt : List Char → List Char → Option (List Char)
  | [], cs => some cs
  | _ :: _, [] => none
  | l :: ls, c :: cs => if l == c.toLower then stripLabelAt ls cs else none

/-- `line.replace(/LABEL:\s*/i, '')`: remove the leftmost case-insensitive
occurrence of the label together with the whitespace run following it;
if no occurrence exists the line is unchanged (non-global regex: only the
first match is replaced). -/
def removeFirstLabel (label : List Char) : List Char → List Char
  | [] => []
  | c :: cs =>
    match stripLabelAt label (c :: cs) with
    | some rest => rest.dropWhile wsChar
    | none => c :: removeFirstLabel label cs

/-- `line.replace(/lab1:\s*|lab2:\s*/i, '')`: at each position the first
alternative is tried before the second; only the leftmost match is
replaced. -/
def removeFirstLabel2 (lab1 lab2 : List Char) : List Char → List Char
  | [] => []
  | c :: cs =>
    match stripLabelAt lab1 (c :: cs) with
    | some rest => rest.dropWhile wsChar
    | none =>
      match stripLabelAt lab2 (c :: cs) with
      | some rest => rest.dropWhile wsChar
      | none => c :: removeFirstLabel2 lab1 lab2 cs

/-- JS `\w` (word character) for the `\b` boundary in `/\btitle:\s*/i`. -/
def wordChar (c : Char) : Bool :=
  c.isAlpha || c.isDigit || c == '_'

/-- Scan for the leftmost occurrence of `title:` (case-insensitive) that is
preceded by a word boundary, removing it and the following whitespace;
`prevWord` records whether the previous character was a word character
(at the start of the string it is `false`, as `\b` holds there). -/
def removeTitleLabelAux (prevWord : Bool) : List Char → List Char
  | [] => []
  | c :: cs =>
    if prevWord then c :: removeTitleLabelAux (wordChar c) cs
    else
      match stripLabelAt ['t', 'i', 't', 'l', 'e', ':'] (c :: cs) with
      | some rest => rest.dropWhile wsChar
      | none => c :: removeTitleLabelAux (wordChar c) cs

/-- `line.replace(/^\d+\.|\btitle:\s*/i, '').trim()` — the title
extraction of main.ts line 216. The regex is non-global, so only the
leftmost match of the alternation is replaced: the anchored `^\d+\.`
when the line starts with digits and a period (matched text: the digit
run and the dot), otherwise the first word-boundary-preceded
case-insensitive `title:` with its trailing whitespace. -/
def extractTitle (line : String) : String :=
  let cs := line.data
  let replaced :=
    if startsNumDot cs then (cs.dropWhile Char.isDigit).drop 1
    else removeTitleLabelAux false cs
  String.mk (trimChars replaced)

/-- `line.replace(/author:\s*/i, '').trim()`. -/
def extractAuthor (line : String) : String :=
  String.mk (trimChars (removeFirstLabel ['a', 'u', 't', 'h', 'o', 'r', ':'] line.data))

/-- `line.replace(/reason:\s*|why:\s*/i, '').trim()`. -/
def extractReason (line : String) : String :=
  String.mk (trimChars
    (removeFirstLabel2 ['r', 'e', 'a', 's', 'o', 'n', ':'] ['w', 'h', 'y', ':'] line.data))

/-- `line.replace(/genre:\s*/i, '').trim()`. -/
def extractGenre (line : String) : String :=
  String.mk (trimChars (removeFirstLabel ['g', 'e', 'n', 'r', 'e', ':'] line.data))

/-- The record under construction: `Partial<BookRecommendation>` from
main.ts. A field the loop never assigned is `none` (absent on the JS
object); the source later casts the partial to `BookRecommendation`
without filling absent fields. -/
structure BookRecommendation where
  title : Option String := none
  author : Option String := none
  reason : Option String := none
  genre : Option String := none
deriving DecidableEq, Repr

/-- JS truthiness of `currentBook.title`: set and not the empty string. -/
def hasTitle (b : BookRecommendation) : Bool :=
  match b.title with
  | some t => !(t == "")
  | none => false

/-- One iteration of the `for (const line of lines)` loop of
`parseTextRecommendations` (main.ts lines 208-224), as a fold step over
the pair (records pushed so far, current record under construction). -/
def stepLine (acc : List BookRecommendation × BookRecommendation) (line : String) :
    List BookRecommendation × BookRecommendation :=
  let recs := acc.1
  let cur := acc.2
  let lower := lowerChars line.data
  if containsTok ['t', 'i', 't', 'l', 'e', ':'] lower || startsNumDot lower then
    let pushed := if hasTitle cur then (recs ++ [cur], ({} : BookRecommendation)) else (recs, cur)
    (pushed.1, { pushed.2 with title := some (extractTitle line) })
  else if containsTok ['a', 'u', 't', 'h', 'o', 'r', ':'] lower then
    (recs, { cur with author := some (extractAuthor line) })
  else if containsTok ['r', 'e', 'a', 's', 'o', 'n', ':'] lower ||
      containsTok ['w', 'h', 'y', ':'] lower then
    (recs, { cur with reason := some (extractReason line) })
  else if containsTok ['g', 'e', 'n', 'r', 'e', ':'] lower then
    (recs, { cur with genre := some (extractGenre line) })
  else
    (recs, cur)

/-- `parseTextRecommendations` (main.ts lines 203-231): split on newline,
drop blank lines, fold the classifier over the lines, and push the final
record when its title is truthy. -/
def parseTextRecommendations (text : String) : List BookRecommendation :=
  let lines := (jsSplitNl text).filter (fun l => !(trimChars l.data).isEmpty)
  let out := lines.foldl stepLine ([], ({} : BookRecommendation))
  if hasTitle out.2 then out.1 ++ [out.2] else out.1

/-- JSON values as produced by a successful `JSON.parse`. -/
inductive Json where
  | null : Json
  | bool (b : Bool) : Json
  | num (n : Int) : Json
  | str (s : String) : Json
  | arr (xs : List Json) : Json
  | obj (fields : List (String × Json)) : Json

/-- `parsed.recommendations` followed by `Array.isArray(...)` (main.ts
line 173): the field exists on the decoded value and holds an array.
Property access on a non-object yields `undefined` (or throws, for
`null` — caught by the surrounding `try`, with the same fall-through
outcome), so every non-object case is `none`. -/
def recsFieldArr : Json → Option (List Json)
  | .obj fields =>
    match fields.lookup "recommendations" with
    | some (.arr xs) => some xs
    | _ => none
  | _ => none

/-- `Array.isArray(parsed)` (main.ts line 175). -/
def isJsonArr : Json → Bool
  | .arr _ => true
  | _ => false

/-- The recognized-shape test of the `try` block (main.ts lines 173-181):
`parsed.recommendations` when it is an array, else `parsed` itself when it
is an array, else `none` (the source throws, landing in the `catch`). -/
def structuredShape (v : Json) : Option (List Json) :=
  match recsFieldArr v with
  | some xs => some xs
  | none => match v with
    | .arr ys => some ys
    | _ => none

/-- The JS object a pushed `Partial<BookRecommendation>` denotes: only the
fields the loop actually assigned are present. Used to give the two parse
branches a common result type. -/
def bookToJson (b : BookRecommendation) : Json :=
  .obj ((match b.title with | some t => [("title", Json.str t)] | none => []) ++
    (match b.author with | some a => [("author", Json.str a)] | none => []) ++
    (match b.reason with | some r => [("reason", Json.str r)] | none => []) ++
    (match b.genre with | some g => [("genre", Json.str g)] | none => []))

/-- The parse step of `POST /api/recommend-books` (main.ts lines 168-185):
attempt the structured decode (`decode` is the `JSON.parse` oracle;
`none` embeds a thrown `SyntaxError`); on an unrecognized or undecodable
shape, fall through to the heuristic parser applied to the original raw
text. -/
def parseResponseText (decode : String → Option Json) (text : String) : List Json :=
  match decode text with
  | some v =>
    match structuredShape v with
    | some xs => xs
    | none => (parseTextRecommendations text).map bookToJson
  | none => (parseTextRecommendations text).map bookToJson

/-- The `books` field of the request body: absent (or otherwise falsy),
present but not an array, or an array of strings. -/
inductive BooksField where
  | missing : BooksField
  | nonList : BooksField
  | arr (books : List String) : BooksField
deriving DecidableEq, Repr

/-- `RecommendationResponse` (main.ts lines 36-39); at runtime the
structured branch stores raw decoded JSON elements in
`recommendations`, so the element type is `Json`. -/
structure RecommendationResponse where
  inputBooks : List String
  recommendations : List Json

/-- The `POST /api/recommend-books` handler body (main.ts lines 114-189):
validation, then the external call (its raw text is the `content`
argument, `none` when the completion has no content), the parse step, and
truncation to 5. The second component records whether the external
generation service was invoked; `Except.error` carries the 400 message. -/
def recommendHandler (decode : String → Option Json) (booksField : BooksField)
    (content : Option String) : Except String RecommendationResponse × Bool :=
  match booksField with
  | .arr books =>
    if books.length = 0 then
      (.error "Please provide at least one book in the books array", false)
    else if books.length > 10 then
      (.error "Please provide no more than 10 books for better recommendations", false)
    else
      let recommendationsText := content.getD ""
      let recommendations := parseResponseText decode recommendationsText
      (.ok ⟨books, recommendations.take 5⟩, true)
  | _ => (.error "Please provide at least one book in the books array", false)

/-- `completion.choices[0].message.content?.split('\n').filter(...).slice(0, 8) || []`
(main.ts lines 98-101): `none` content short-circuits the optional chain
to `[]`; otherwise split on newline, keep lines with non-empty trim
(the lines themselves, untrimmed), and take the first 8. -/
def suggestionLines (content : Option String) : List String :=
  match content with
  | none => []
  | some s => (((jsSplitNl s).filter (fun l => !(trimChars l.data).isEmpty)).take 8)

/-- The `GET /api/book-suggestions` handler (main.ts lines 74-103):
queries of fewer than 2 characters return `[]` before the external call;
otherwise the completion text (`content`) is reduced by
`suggestionLines`. The second component records whether the external
service was invoked. -/
def suggestionHandler (query : String) (content : Option String) :
    List String × Bool :=
  if query.length < 2 then ([], false)
  else (suggestionLines content, true)

/-- `.ok` test on the handler result. -/
def isOkResult (r : Except String RecommendationResponse) : Bool :=
  match r with
  | .ok _ => true
  | .error _ => false

/-! ### Helper lemmas shared by several claim proofs -/

/-- Splitting a newline-free character list yields the single segment made
of the accumulator and the rest. -/
theorem splitNlAux_no_newline : ∀ (cs acc : List Char), (∀ c ∈ cs, c ≠ '\n') →
    splitNlAux cs acc = [String.mk (acc.reverse ++ cs)] := by
  intro cs
  induction cs with
  | nil => intro acc _; simp [splitNlAux]
  | cons c cs ih =>
    intro acc h
    have hc : (c == '\n') = false := by
      simp only [beq_eq_false_iff_ne, ne_eq]
      exact h c (List.mem_cons_self c cs)
    rw [splitNlAux, if_neg (by simp [hc])]
    rw [ih (c :: acc) (fun d hd => h d (List.mem_cons_of_mem c hd))]
    simp

/-- A newline-free string splits into itself alone. -/
theorem jsSplitNl_eq_single (s : String) (h : ∀ c ∈ s.data, c ≠ '\n') :
    jsSplitNl s = [s] := by
  rw [jsSplitNl, splitNlAux_no_newline s.data [] h]
  rfl

/-- Dropping a prefix cannot consume a final element the predicate rejects. -/
theorem dropWhile_append_singleton_ne_nil (p : Char → Bool) (c : Char)
    (hp : p c = false) : ∀ xs : List Char, (xs ++ [c]).dropWhile p ≠ [] := by
  intro xs
  induction xs with
  | nil => simp [List.dropWhile, hp]
  | cons x xs ih =>
    by_cases hx : p x = true
    · simpa [List.dropWhile, hx] using ih
    · simp [List.dropWhile, hx]

/-- A line whose first character is not whitespace has a non-empty trim. -/
theorem trimChars_cons_ne_nil (c : Char) (cs : List Char) (hc : wsChar c = false) :
    trimChars (c :: cs) ≠ [] := by
  unfold trimChars
  rw [List.dropWhile_cons, if_neg (by simp [hc])]
  intro hcontra
  have : ((cs.reverse ++ [c]).dropWhile wsChar) = [] := by
    simpa [List.reverse_cons] using congrArg List.reverse hcontra
  exact dropWhile_append_singleton_ne_nil wsChar c hc cs.reverse this

/-- A record in the first component after one `stepLine` iteration was
either already there or is the flushed current record, flushed only when
its title is truthy. -/
theorem mem_stepLine_fst (line : String)
    (acc : List BookRecommendation × BookRecommendation) (b : BookRecommendation)
    (hb : b ∈ (stepLine acc line).1) :
    b ∈ acc.1 ∨ (b = acc.2 ∧ hasTitle acc.2 = true) := by
  simp only [stepLine] at hb
  split at hb
  · split at hb
    · rename_i hT
      simp only [List.mem_append, List.mem_singleton] at hb
      rcases hb with h | h
      · exact Or.inl h
      · exact Or.inr ⟨h, hT⟩
    · exact Or.inl hb
  · split at hb
    · exact Or.inl hb
    · split at hb
      · exact Or.inl hb
      · split at hb
        · exact Or.inl hb
        · exact Or.inl hb

/-- The fold of `stepLine` preserves the invariant that every pushed
record has a truthy title. -/
theorem foldl_stepLine_inv : ∀ (lines : List String)
    (acc : List BookRecommendation × BookRecommendation),
    (∀ b ∈ acc.1, hasTitle b = true) →
    ∀ b ∈ (lines.foldl stepLine acc).1, hasTitle b = true := by
  intro lines
  induction lines with
  | nil => intro acc hacc b hb; exact hacc b hb
  | cons l ls ih =>
    intro acc hacc b hb
    refine ih (stepLine acc l) ?_ b hb
    intro c hc
    rcases mem_stepLine_fst l acc c hc with h | ⟨hceq, ht⟩
    · exact hacc c h
    · exact hceq ▸ ht

/-- The structured branch: a decoded object whose `recommendations` field
is an array makes the parse step return that array unchanged. -/
theorem parseResponseText_structured (decode : String → Option Json) (text : String)
    (fields : List (String × Json)) (xs : List Json)
    (hdec : decode text = some (.obj fields))
    (hrec : fields.lookup "recommendations" = some (.arr xs)) :
    parseResponseText decode text = xs := by
  simp only [parseResponseText, hdec, structuredShape, recsFieldArr, hrec]

/-- An unrecognized decoded shape makes the structured attempt fail. -/
theorem structuredShape_none (v : Json) (hnorecs : recsFieldArr v = none)
    (hnoarr : isJsonArr v = false) : structuredShape v = none := by
  unfold structuredShape
  rw [hnorecs]
  cases v <;> simp_all [isJsonArr]

/-! ### Claim theorems -/

/-- C5: heuristic parse of the six-line example text yields exactly the two
expected records, with the fields never set on the second record absent. -/
theorem heuristic_parse_six_line_example :
    parseTextRecommendations "1. Dune\nAuthor: Frank Herbert\nReason: Epic scope\nGenre: Sci-fi\n2. Foundation\nAuthor: Isaac Asimov" =
    [{ title := some "Dune", author := some "Frank Herbert",
       reason := some "Epic scope", genre := some "Sci-fi" },
     { title := some "Foundation", author := some "Isaac Asimov" }] := by decide

/-- C8: a query of fewer than 2 characters makes the suggestion handler
return the empty list without invoking the external service. -/
theorem short_query_short_circuits (query : String) (content : Option String)
    (h : query.length < 2) : suggestionHandler query content = ([], false) := by
  simp [suggestionHandler, h]

/-- Witness for C8 at the one-character query of the spec's example. -/
theorem short_query_short_circuits_witness :
    suggestionHandler "a" (some "Harry Potter") = ([], false) :=
  short_query_short_circuits "a" (some "Harry Potter") (by decide)

/-- C2: every record the heuristic parser returns has a non-empty title. -/
theorem parsed_records_have_nonempty_title (text : String) (b : BookRecommendation)
    (hb : b ∈ parseTextRecommendations text) : b.title.getD "" ≠ "" := by
  have key : hasTitle b = true := by
    simp only [parseTextRecommendations] at hb
    have hinv := foldl_stepLine_inv
      ((jsSplitNl text).filter (fun l => !(trimChars l.data).isEmpty))
      ([], ({} : BookRecommendation)) (by intro c hc; cases hc)
    split at hb
    · rename_i ht
      simp only [List.mem_append, List.mem_singleton] at hb
      rcases hb with h | h
      · exact hinv b h
      · exact h ▸ ht
    · exact hinv b hb
  cases ht : b.title with
  | none => rw [hasTitle, ht] at key; cases key
  | some t =>
    rw [hasTitle, ht, Bool.not_eq_true', beq_eq_false_iff_ne] at key
    simpa [ht] using key

/-- Witness for C2 on a single numbered line. -/
theorem parsed_records_have_nonempty_title_witness :
    ({ title := some "Dune" } : BookRecommendation) ∈ parseTextRecommendations "1. Dune" ∧
    ({ title := some "Dune" } : BookRecommendation).title.getD "" ≠ "" :=
  ⟨by decide, parsed_records_have_nonempty_title "1. Dune" _ (by decide)⟩

/-- C3: a decoded object carrying a `recommendations` array of at most 5
elements is returned by the parse step exactly, with no per-element
validation or coercion. -/
theorem structured_entries_returned_unchanged (decode : String → Option Json)
    (text : String) (fields : List (String × Json)) (xs : List Json)
    (hdec : decode text = some (.obj fields))
    (hrec : fields.lookup "recommendations" = some (.arr xs))
    (_hlen : xs.length ≤ 5) :
    parseResponseText decode text = xs :=
  parseResponseText_structured decode text fields xs hdec hrec

/-- Witness for C3: two raw entries (not even objects) pass through. -/
theorem structured_entries_returned_unchanged_witness :
    parseResponseText
      (fun _ => some (.obj [("recommendations", .arr [.null, .bool true])]))
      "raw" = [.null, .bool true] :=
  structured_entries_returned_unchanged
    (fun _ => some (.obj [("recommendations", .arr [.null, .bool true])]))
    "raw" [("recommendations", .arr [.null, .bool true])] [.null, .bool true]
    rfl rfl (by decide)

/-- C10: a missing or empty completion makes the structured decode fail,
the heuristic parser return nothing, and the handler answer successfully
with an empty recommendation list. -/
theorem empty_completion_gives_empty_recommendations
    (decode : String → Option Json) (books : List String) (content : Option String)
    (hne : books ≠ []) (hlen : books.length ≤ 10)
    (hc : content.getD "" = "") (hdec : decode "" = none) :
    recommendHandler decode (.arr books) content = (.ok ⟨books, []⟩, true) := by
  have h0 : ¬ books.length = 0 := by
    simpa [List.length_eq_zero] using hne
  have h10 : ¬ books.length > 10 := by omega
  have hparse : parseResponseText decode "" = [] := by
    rw [parseResponseText, hdec]
    rfl
  simp only [recommendHandler, if_neg h0, if_neg h10, hc, hparse, List.take_nil]

/-- Witness for C10 with one input book and an absent completion. -/
theorem empty_completion_gives_empty_recommendations_witness :
    recommendHandler (fun _ => none) (.arr ["Dune"]) none =
      (.ok ⟨["Dune"], []⟩, true) :=
  empty_completion_gives_empty_recommendations (fun _ => none) ["Dune"] none
    (by decide) (by decide) rfl rfl

/-- C9: the recommendation handler fails (with the 400 validation message)
exactly when the books input is missing, not a proper list, empty, or has
more than 10 entries; in every failing case the external generation
service is not invoked. -/
theorem recommend_validation_exact (decode : String → Option Json)
    (content : Option String) (b : BooksField) :
    (isOkResult (recommendHandler decode b content).1 = false ↔
      (b = .missing ∨ b = .nonList ∨
        ∃ bs, b = .arr bs ∧ (bs = [] ∨ 10 < bs.length))) ∧
    (isOkResult (recommendHandler decode b content).1 = false →
      (recommendHandler decode b content).2 = false) := by
  cases b with
  | missing => simp [recommendHandler, isOkResult]
  | nonList => simp [recommendHandler, isOkResult]
  | arr bs =>
    by_cases h0 : bs.length = 0
    · have hb : bs = [] := List.length_eq_zero.mp h0
      subst hb
      simp [recommendHandler, isOkResult]
    · by_cases h10 : bs.length > 10
      · simp [recommendHandler, isOkResult, h0, h10]
      · have hne : bs ≠ [] := fun hbs => h0 (by simp [hbs])
        simp [recommendHandler, isOkResult, h0, h10, hne]

/-- Witness for C9: eleven titles are rejected without a service call. -/
theorem recommend_validation_exact_witness :
    isOkResult (recommendHandler (fun _ => none)
      (.arr ["1", "2", "3", "4", "5", "6", "7", "8", "9", "10", "11"]) none).1 = false ∧
    (recommendHandler (fun _ => none)
      (.arr ["1", "2", "3", "4", "5", "6", "7", "8", "9", "10", "11"]) none).2 = false := by
  have h := recommend_validation_exact (fun _ => none) none
    (.arr ["1", "2", "3", "4", "5", "6", "7", "8", "9", "10", "11"])
  have hfail := h.1.mpr (Or.inr (Or.inr ⟨_, rfl, Or.inr (by decide)⟩))
  exact ⟨hfail, h.2 hfail⟩

/-- C1: every successful response carries at most 5 recommendations, a
prefix (so in original order) of the parsed records; when the structured
decode yields a `recommendations` array of more than 5 entries, exactly
the first 5 are returned. -/
theorem recommendations_truncated_to_five (decode : String → Option Json)
    (books : List String) (content : Option String) (resp : RecommendationResponse)
    (h : (recommendHandler decode (.arr books) content).1 = .ok resp) :
    resp.recommendations.length ≤ 5 ∧
    (∃ rest, parseResponseText decode (content.getD "") =
      resp.recommendations ++ rest) ∧
    (∀ fields xs, decode (content.getD "") = some (.obj fields) →
      fields.lookup "recommendations" = some (.arr xs) → 5 < xs.length →
      resp.recommendations = xs.take 5) := by
  by_cases h0 : books.length = 0
  · simp [recommendHandler, h0] at h
  · by_cases h10 : books.length > 10
    · simp [recommendHandler, h0, h10] at h
    · simp only [recommendHandler, if_neg h0, if_neg h10] at h
      have hresp : resp =
          ⟨books, (parseResponseText decode (content.getD "")).take 5⟩ := by
        injection h with h'
        exact h'.symm
      subst hresp
      refine ⟨List.length_take_le 5 _, ?_, ?_⟩
      · exact ⟨(parseResponseText decode (content.getD "")).drop 5,
          (List.take_append_drop 5 _).symm⟩
      · intro fields xs hdec hrec _
        rw [parseResponseText_structured decode _ fields xs hdec hrec]

/-- Witness for C1: six structured entries are cut to the first five. -/
theorem recommendations_truncated_to_five_witness :
    (RecommendationResponse.mk ["a"]
      ([Json.num 0, .num 1, .num 2, .num 3, .num 4, .num 5].take 5)).recommendations =
      [Json.num 0, .num 1, .num 2, .num 3, .num 4, .num 5].take 5 := by
  have h := recommendations_truncated_to_five
    (fun _ => some (.obj [("recommendations",
      .arr [Json.num 0, .num 1, .num 2, .num 3, .num 4, .num 5])]))
    ["a"] (some "raw")
    (RecommendationResponse.mk ["a"]
      ([Json.num 0, .num 1, .num 2, .num 3, .num 4, .num 5].take 5)) rfl
  exact h.2.2 [("recommendations",
      .arr [Json.num 0, .num 1, .num 2, .num 3, .num 4, .num 5])]
    [Json.num 0, .num 1, .num 2, .num 3, .num 4, .num 5] rfl rfl (by decide)

/-- C4: a decoded value that is neither an object with a `recommendations`
array nor itself an array makes the parse step fall back to the heuristic
parser applied to the original raw text, and the handler still answers
successfully (the internal failure never reaches the caller). -/
theorem unrecognized_shape_falls_back_to_raw_text (decode : String → Option Json)
    (text : String) (v : Json)
    (hdec : decode text = some v)
    (hnorecs : recsFieldArr v = none)
    (hnoarr : isJsonArr v = false) :
    parseResponseText decode text = (parseTextRecommendations text).map bookToJson ∧
    ∀ books : List String, books ≠ [] → books.length ≤ 10 →
      (recommendHandler decode (.arr books) (some text)).1 =
        .ok ⟨books, ((parseTextRecommendations text).map bookToJson).take 5⟩ := by
  have hshape := structuredShape_none v hnorecs hnoarr
  have hp : parseResponseText decode text =
      (parseTextRecommendations text).map bookToJson := by
    simp only [parseResponseText, hdec, hshape]
  refine ⟨hp, ?_⟩
  intro books hne hlen
  have h0 : ¬ books.length = 0 := by simpa [List.length_eq_zero] using hne
  have h10 : ¬ books.length > 10 := by omega
  simp only [recommendHandler, if_neg h0, if_neg h10, Option.getD_some, hp]

/-- Witness for C4: a decoded bare string falls through to the heuristic
parse of the raw text, and the handler succeeds. -/
theorem unrecognized_shape_falls_back_to_raw_text_witness :
    parseResponseText (fun _ => some (.str "x")) "Title: Dune" =
      (parseTextRecommendations "Title: Dune").map bookToJson ∧
    (recommendHandler (fun _ => some (.str "x")) (.arr ["a"]) (some "Title: Dune")).1 =
      .ok ⟨["a"], ((parseTextRecommendations "Title: Dune").map bookToJson).take 5⟩ := by
  have h := unrecognized_shape_falls_back_to_raw_text
    (fun _ => some (.str "x")) "Title: Dune" (.str "x") rfl rfl rfl
  exact ⟨h.1, h.2 ["a"] (by decide) (by decide)⟩

/-- C6 counterexample: on the line "1. Title: Dune", which carries both a
leading numeric marker and a `Title:` label, the claim predicts the title
"Dune" with both stripped; the code strips only the marker and yields
"Title: Dune". -/
theorem title_both_markers_counterexample :
    parseTextRecommendations "1. Title: Dune" = [{ title := some "Title: Dune" }] ∧
    ("Title: Dune" : String) ≠ "Dune" := ⟨by decide, by decide⟩

/-- C6 amended: on every non-blank single line that begins a new record
(the `title:`/numeric-marker guard holds) whose extracted title is
non-empty, the title equals the line with only the leftmost regex match
stripped and the remainder trimmed: the digit run and its period when the
line starts with a numeric marker (any `title:` label then being retained
inside the title), otherwise the first word-boundary-preceded
case-insensitive `title:` label with its trailing whitespace. -/
theorem title_strips_leftmost_match_only (l : String)
    (hnl : ∀ c ∈ l.data, c ≠ '\n')
    (hblank : trimChars l.data ≠ [])
    (hguard : (containsTok ['t', 'i', 't', 'l', 'e', ':'] (lowerChars l.data) ||
      startsNumDot (lowerChars l.data)) = true)
    (hrem : trimChars (if startsNumDot l.data then (l.data.dropWhile Char.isDigit).drop 1
      else removeTitleLabelAux false l.data) ≠ []) :
    parseTextRecommendations l =
      [{ title := some (String.mk (trimChars
        (if startsNumDot l.data then (l.data.dropWhile Char.isDigit).drop 1
         else removeTitleLabelAux false l.data))) }] := by
  have hextract : extractTitle l =
      String.mk (trimChars
        (if startsNumDot l.data then (l.data.dropWhile Char.isDigit).drop 1
         else removeTitleLabelAux false l.data)) := rfl
  have hbemp : (trimChars l.data).isEmpty = false := by
    simp [List.isEmpty_iff, hblank]
  have hfilter : ((jsSplitNl l).filter (fun s => !(trimChars s.data).isEmpty)) = [l] := by
    rw [jsSplitNl_eq_single l hnl]
    simp [List.filter, hbemp]
  have hstep : stepLine ([], ({} : BookRecommendation)) l =
      ([], { title := some (extractTitle l) }) := by
    simp [stepLine, hguard, hasTitle]
  have htitle : hasTitle { title := some (extractTitle l) } = true := by
    rw [hasTitle, hextract]
    simp only [Bool.not_eq_true', beq_eq_false_iff_ne, ne_eq]
    intro hcontra
    exact hrem (congrArg String.data hcontra)
  rw [parseTextRecommendations, hfilter]
  simp only [List.foldl, hstep]
  rw [if_pos htitle, hextract, List.nil_append]

/-- Witness for the amended C6, exercising the `title:`-label branch (no
numeric marker, so the first word-boundary-preceded label is stripped)
at a concrete line. -/
theorem title_strips_leftmost_match_only_witness :
    parseTextRecommendations "Title: Dune" =
      [{ title := some (String.mk (trimChars
        (if startsNumDot ("Title: Dune" : String).data then
          ((("Title: Dune" : String).data.dropWhile Char.isDigit).drop 1)
         else removeTitleLabelAux false ("Title: Dune" : String).data))) }] :=
  title_strips_leftmost_match_only "Title: Dune"
    (by decide) (by decide) (by decide) (by decide)

/-- C7 counterexample: the suggestion handler returns the original lines,
so a line kept for having non-blank content is returned with its leading
whitespace — not a trimmed string as the claim states. -/
theorem suggestion_entries_untrimmed_counterexample :
    suggestionHandler "harry" (some " Harry Potter") = ([" Harry Potter"], true) ∧
    jsTrim " Harry Potter" ≠ " Harry Potter" := ⟨by decide, by decide⟩

/-- C7 amended: at most 8 entries, each a line with non-empty trim, taken
as a prefix (hence original order) of the blank-filtered newline-split
completion text — but each entry is the original untrimmed line. -/
theorem suggestion_lines_bounded_nonblank (content : Option String) :
    (suggestionLines content).length ≤ 8 ∧
    (∀ l ∈ suggestionLines content, trimChars l.data ≠ []) ∧
    (∀ s, content = some s →
      ∃ rest, (jsSplitNl s).filter (fun l => !(trimChars l.data).isEmpty) =
        suggestionLines content ++ rest) := by
  cases content with
  | none =>
    refine ⟨by simp [suggestionLines], ?_, ?_⟩
    · intro l hl
      simp [suggestionLines] at hl
    · intro s hs
      cases hs
  | some s =>
    refine ⟨?_, ?_, ?_⟩
    · simp [suggestionLines, List.length_take_le]
    · intro l hl
      simp only [suggestionLines] at hl
      have hmem := List.mem_of_mem_take hl
      have hp := List.of_mem_filter hmem
      simpa [List.isEmpty_iff] using hp
    · intro t ht
      cases ht
      refine ⟨((jsSplitNl s).filter (fun l => !(trimChars l.data).isEmpty)).drop 8, ?_⟩
      simp only [suggestionLines]
      exact (List.take_append_drop 8 _).symm

/-- Witness for the amended C7 on a completion with a blank line and
leading whitespace. -/
theorem suggestion_lines_bounded_nonblank_witness :
    (suggestionLines (some " a\n\nb")).length ≤ 8 ∧
    trimChars (" a" : String).data ≠ [] ∧
    (∃ rest, (jsSplitNl " a\n\nb").filter (fun l => !(trimChars l.data).isEmpty) =
      suggestionLines (some " a\n\nb") ++ rest) := by
  have h := suggestion_lines_bounded_nonblank (some " a\n\nb")
  exact ⟨h.1, h.2.1 " a" (by decide), h.2.2 " a\n\nb" rfl⟩
